import Mathlib

/-!
Verification of the Polymarket data pipeline
(`src/data/data_fetcher.py`, `src/data/monitor.py`, `src/models/database.py`).

The Python code is shallowly embedded: dictionaries become structures with
`Option` fields for keys that may be absent, JSON scalar values that are fed
to `float()` become the `JNum` type, timestamps become explicit `Nat`
parameters (seconds), the database session becomes an explicit list of stored
rows, and the two failure sources of `store_markets` (a per-record database
error and a failing final commit) become explicit oracles.
-/

namespace DataPipeline

/-- A JSON scalar as it can appear in the `volume`, `volume24h` and
`outcomePrices` fields of a Polymarket payload: a number, a string, or null. -/
inductive JNum where
  | jnum (q : ℚ)
  | jstr (s : String)
  | jnull
deriving DecidableEq

/-- Accumulate a digit list into a natural number (base 10). -/
def digitsToNat (cs : List Char) : Nat :=
  cs.foldl (fun n c => n * 10 + (c.toNat - 48)) 0

/-- Model of Python `float()` applied to a string, for plain decimal
literals: an optional sign, then digits with at most one decimal point and
at least one digit overall.  Strings outside this shape (such as `"abc"`)
fail, as `float()` raises `ValueError` on them. -/
def parseFloat (s : String) : Option ℚ :=
  let cs := s.toList
  let signed : ℚ × List Char :=
    match cs with
    | '-' :: r => (-1, r)
    | '+' :: r => (1, r)
    | r => (1, r)
  let intPart := signed.2.takeWhile Char.isDigit
  let rest := signed.2.dropWhile Char.isDigit
  match rest with
  | [] => if intPart.isEmpty then none else some (signed.1 * digitsToNat intPart)
  | '.' :: frac =>
      if frac.all Char.isDigit && !(intPart.isEmpty && frac.isEmpty) then
        some (signed.1 * ((digitsToNat intPart : ℚ) +
          (digitsToNat frac : ℚ) / (10 ^ frac.length)))
      else none
  | _ => none

/-- Python truthiness of a JSON scalar: nonzero numbers and nonempty strings
are truthy, `None` is falsy. -/
def pyTruthy : JNum → Bool
  | .jnum q => q != 0
  | .jstr s => s != ""
  | .jnull => false

/-- Model of Python `float()` on a JSON scalar: numbers pass through,
strings are parsed, `float(None)` raises (`none`). -/
def pyFloat : JNum → Option ℚ
  | .jnum q => some q
  | .jstr s => parseFloat s
  | .jnull => none

/-- The `outcomePrices` field of a raw payload: absent, a string (carrying
the result of `json.loads`, `none` when decoding fails), or already a list. -/
inductive OPrices where
  | absent
  | asString (decoded : Option (List JNum))
  | asList (l : List JNum)
deriving DecidableEq

/-- A raw market payload as returned by the Polymarket API, i.e. the
dictionary read by `filter_crypto_markets` and `extract_market_data`.
`none` in an `Option` field models an absent key. -/
structure RawMarket where
  id : Option String
  question : Option String
  description : Option String
  outcomePrices : OPrices
  volume24h : Option JNum
  volume : Option JNum
  active : Option Bool
  resolved : Option Bool
  outcome : Option String
  endDate : Option String
deriving DecidableEq

/-- The normalized dictionary built by `extract_market_data`. -/
structure MarketData where
  market_id : Option String
  question : String
  description : Option String
  yes_price : Option ℚ
  no_price : Option ℚ
  volume_24h : ℚ
  volume : ℚ
  active : Bool
  resolved : Bool
  outcome : Option String
  end_date : Option String
deriving DecidableEq

/-- A stored row of the `markets` table (`Market` in
`src/models/database.py`); timestamps are seconds as `Nat`. -/
structure Market where
  market_id : Option String
  question : String
  description : Option String
  yes_price : Option ℚ
  no_price : Option ℚ
  volume : ℚ
  volume_24h : ℚ
  liquidity : ℚ
  active : Bool
  resolved : Bool
  outcome : Option String
  end_date : Option String
  created_at : Nat
  updated_at : Nat
deriving DecidableEq

/-! ## Crypto filter -/

/-- `prefixOf n h` is true when `n` is an initial segment of `h`. -/
def prefixOf : List Char → List Char → Bool
  | [], _ => true
  | _ :: _, [] => false
  | a :: as, b :: bs => a == b && prefixOf as bs

/-- `containsSub n h` is true when `n` occurs contiguously inside `h`;
this is the model of Python's `needle in haystack` on strings. -/
def containsSub (needle : List Char) : List Char → Bool
  | [] => needle.isEmpty
  | c :: rest => prefixOf needle (c :: rest) || containsSub needle rest

/-- Python `needle in haystack` on strings. -/
def substr (needle hay : String) : Bool :=
  containsSub needle.toList hay.toList

/-- Python `str.lower()`, modelled character by character. -/
def lowerString (s : String) : String :=
  ⟨s.data.map Char.toLower⟩

/-- `PolymarketFetcher.CRYPTO_KEYWORDS`. -/
def CRYPTO_KEYWORDS : List String :=
  ["bitcoin", "btc", "ethereum", "eth", "crypto",
   "solana", "sol", "dogecoin", "doge", "xrp", "ripple",
   "cardano", "ada", "polygon", "matic", "arbitrum"]

/-- The per-payload test of `filter_crypto_markets`: lowercase the question
(defaulting to the empty string when the key is absent) and look for any
crypto keyword inside it. -/
def isCryptoRelevant (m : RawMarket) : Bool :=
  CRYPTO_KEYWORDS.any (fun kw => substr kw (lowerString (m.question.getD "")))

/-- `PolymarketFetcher.filter_crypto_markets`: the loop appending every
matching payload in order. -/
def filter_crypto_markets : List RawMarket → List RawMarket
  | [] => []
  | m :: ms =>
      if isCryptoRelevant m then m :: filter_crypto_markets ms
      else filter_crypto_markets ms

/-! ## Record normalizer -/

/-- The effective `outcome_prices` list after the `isinstance`/`json.loads`
preamble of `extract_market_data`: an absent key defaults to `[]`, a string
is decoded (decode failure also giving `[]`), a list passes through. -/
def effOutcomePrices (m : RawMarket) : List JNum :=
  match m.outcomePrices with
  | .absent => []
  | .asString none => []
  | .asString (some l) => l
  | .asList l => l

/-- `float(outcome_prices[i])` guarded by the length test: a missing
position yields the value `None` (`some none`), a present position is
converted by `float()`, whose failure (`none`) aborts the whole payload. -/
def priceAt (l : List JNum) (i : Nat) : Option (Option ℚ) :=
  match l.get? i with
  | none => some none
  | some v => (pyFloat v).map some

/-- The volume computation
`float(market.get(k, 0)) if market.get(k) else 0`: an absent or falsy value
gives `0`; a truthy value is converted by `float()`, whose failure aborts
the whole payload. -/
def volField : Option JNum → Option ℚ
  | none => some 0
  | some v => if pyTruthy v then pyFloat v else some 0

/-- `PolymarketFetcher.extract_market_data`: builds the normalized record,
returning `none` when any `float()` conversion raises (the enclosing
`try`/`except` returns `None`). -/
def extract_market_data (m : RawMarket) : Option MarketData :=
  match priceAt (effOutcomePrices m) 0, priceAt (effOutcomePrices m) 1,
        volField m.volume24h, volField m.volume with
  | some y, some np, some v24, some v =>
      some { market_id := m.id
             question := m.question.getD "Unknown"
             description := m.description
             yes_price := y
             no_price := np
             volume_24h := v24
             volume := v
             active := m.active.getD true
             resolved := m.resolved.getD false
             outcome := m.outcome
             end_date := m.endDate }
  | _, _, _, _ => none

/-! ## Fetch client -/

/-- `PolymarketFetcher.MAX_RETRIES`. -/
def MAX_RETRIES : Nat := 3

/-- The outcome of one HTTP attempt inside `fetch_markets`:
a successful, parsed response; a `requests.exceptions.ConnectionError`;
a `requests.exceptions.Timeout`; or any other exception (bad status,
malformed JSON, ...) caught by the generic handler. -/
inductive FetchOutcome where
  | success (markets : List RawMarket)
  | connError
  | timeout
  | otherError
deriving DecidableEq

/-- The retry loop of `fetch_markets`, iterating over the remaining attempt
indices.  Returns the fetched payloads together with the number of attempts
made and the list of back-off sleep durations performed, in order. -/
def fetchLoop (oracle : Nat → FetchOutcome) :
    List Nat → List RawMarket × Nat × List Nat
  | [] => ([], 0, [])
  | a :: rest =>
    match oracle a with
    | .success ms => (ms, 1, [])
    | .connError =>
        if a < MAX_RETRIES - 1 then
          let r := fetchLoop oracle rest
          (r.1, r.2.1 + 1, 2 ^ a :: r.2.2)
        else ([], 1, [])
    | .timeout =>
        if a < MAX_RETRIES - 1 then
          let r := fetchLoop oracle rest
          (r.1, r.2.1 + 1, 2 ^ a :: r.2.2)
        else ([], 1, [])
    | .otherError => ([], 1, [])

/-- `PolymarketFetcher.fetch_markets`: `for attempt in range(MAX_RETRIES)`,
with the outcome of each attempt supplied by the oracle. -/
def fetch_markets (oracle : Nat → FetchOutcome) :
    List RawMarket × Nat × List Nat :=
  fetchLoop oracle (List.range MAX_RETRIES)

/-! ## Reconciler / store

The database session becomes an explicit list of stored rows.  The SQLAlchemy
query `session.query(Market).filter_by(market_id=...).first()` finds the
first row with the given `market_id`; mutating it in place becomes replacing
that first matching row.  `datetime.utcnow()` becomes the explicit cycle
time `n`. -/

/-- The `filter_by(market_id=market_data['market_id'])` predicate. -/
def pMatch (d : MarketData) (r : Market) : Bool :=
  decide (r.market_id = d.market_id)

/-- Replace the first element satisfying `p` by its image under `f`,
leaving everything else in place; the model of querying `.first()` and
mutating the returned row. -/
def updateFirst (p : Market → Bool) (f : Market → Market) :
    List Market → List Market
  | [] => []
  | r :: rs => if p r then f r :: rs else r :: updateFirst p f rs

/-- The update branch of `store_markets`: overwrite the price, volume and
status fields from this cycle's record and refresh `updated_at`. -/
def updRec (r : Market) (d : MarketData) (n : Nat) : Market :=
  { r with
    yes_price := d.yes_price
    no_price := d.no_price
    volume_24h := d.volume_24h
    volume := d.volume
    active := d.active
    resolved := d.resolved
    outcome := d.outcome
    updated_at := n }

/-- The create branch of `store_markets`: the `Market(...)` constructor call.
`end_date` is not passed, `liquidity` keeps its column default `0`, and the
timestamp columns take their `datetime.utcnow` defaults. -/
def newRec (d : MarketData) (n : Nat) : Market :=
  { market_id := d.market_id
    question := d.question
    description := d.description
    yes_price := d.yes_price
    no_price := d.no_price
    volume_24h := d.volume_24h
    volume := d.volume
    liquidity := 0
    active := d.active
    resolved := d.resolved
    outcome := d.outcome
    end_date := none
    created_at := n
    updated_at := n }

/-- Whether the store already holds a row for this record's `market_id`. -/
def hasId (s : List Market) (d : MarketData) : Bool :=
  s.any (pMatch d)

/-- One iteration of the `store_markets` loop on a non-null record:
update the existing row if one exists, otherwise add a new row. -/
def upsert (n : Nat) (s : List Market) (d : MarketData) : List Market :=
  if hasId s d then updateFirst (pMatch d) (fun r => updRec r d n) s
  else s ++ [newRec d n]

/-- The body of the `for market_data in crypto_markets` loop of
`store_markets`, threading `(stored_count, session-state)`.  A `none`
element is the falsy-record `continue`; `ok d = false` models an exception
raised while processing record `d` (the database lookup failing), which is
caught, skips the record, and leaves both count and state unchanged. -/
def storeLoop (ok : MarketData → Bool) (n : Nat) :
    Nat × List Market → List (Option MarketData) → Nat × List Market
  | acc, [] => acc
  | acc, none :: rest => storeLoop ok n acc rest
  | acc, some d :: rest =>
      if ok d then storeLoop ok n (acc.1 + 1, upsert n acc.2 d) rest
      else storeLoop ok n acc rest

/-- `PolymarketFetcher.store_markets`.  `commitOk` is whether the final
`session.commit()` succeeds; on failure the session is rolled back (the
store is as before) and `0` is returned.  An empty batch returns `0`
immediately.  The result is `(returned count, store after the call)`. -/
def store_markets (commitOk : Bool) (ok : MarketData → Bool) (n : Nat)
    (store : List Market) (batch : List (Option MarketData)) :
    Nat × List Market :=
  if batch.isEmpty then (0, store)
  else
    let r := storeLoop ok n (0, store) batch
    if commitOk then r else (0, store)

/-- The fault-free per-record oracle: no database error while processing
any record. -/
def okAll : MarketData → Bool := fun _ => true

/-! ## Full fetch cycle -/

/-- `fetch_and_store_markets`: one full cycle.  Returns the reported
success flag together with the store after the cycle. -/
def fetch_and_store_markets (oracle : Nat → FetchOutcome) (commitOk : Bool)
    (ok : MarketData → Bool) (n : Nat) (store : List Market) :
    Bool × List Market :=
  let markets := (fetch_markets oracle).1
  if markets.isEmpty then (false, store)
  else
    let crypto := filter_crypto_markets markets
    if crypto.isEmpty then (false, store)
    else
      let market_data_list := crypto.filterMap extract_market_data
      let r := store_markets commitOk ok n store (market_data_list.map some)
      (true, r.2)

/-! ## Health monitor -/

/-- `PipelineMonitor.get_last_update_time`: the `updated_at` of the row with
the greatest `updated_at` (`order_by(updated_at.desc()).first()`), `none`
when the table is empty. -/
def get_last_update_time : List Market → Option Nat
  | [] => none
  | r :: rs =>
      some (match get_last_update_time rs with
            | none => r.updated_at
            | some t => max r.updated_at t)

/-- The string returned for an empty store. -/
def noDataMsg : String := "No data in database"

/-- The FRESH status string. -/
def freshMsg : String := "FRESH"

/-- The STALE status string. -/
def staleMsg : String := "STALE"

/-- The VERY STALE status string. -/
def veryStaleMsg : String := "VERY STALE"

/-- `PipelineMonitor.get_data_freshness`: the age (`now - last_update`, in
seconds, as a possibly negative `Int` exactly like a Python `timedelta`)
of the most recent update, classified against 20 minutes and 1 hour. -/
def get_data_freshness (now : Nat) (store : List Market) :
    Option Int × String :=
  match get_last_update_time store with
  | none => (none, noDataMsg)
  | some t =>
      let age : Int := (now : Int) - (t : Int)
      (some age,
        if age < 20 * 60 then freshMsg
        else if age < 3600 then staleMsg
        else veryStaleMsg)

/-- The log line marking a successful cycle. -/
def succMsg : String := "Data fetch completed successfully"

/-- The log line marking a failed cycle. -/
def fatalMsg : String := "Fatal error in fetch_and_store_markets"

/-- The summary dictionary built by `get_log_summary`; `success_rate` is the
rate in percent, `none` standing for the `"N/A"` string. -/
structure LogSummary where
  total_fetches : Nat
  successful_fetches : Nat
  failed_fetches : Nat
  success_rate : Option ℚ
deriving DecidableEq

/-- The counting loop of `get_log_summary`: one pass over the log lines,
incrementing the success counter on a line containing the success marker,
else the failure counter on a line containing the fatal marker. -/
def tallyLog (lines : List String) : Nat × Nat :=
  lines.foldl
    (fun (sf : Nat × Nat) l =>
      if substr succMsg l then (sf.1 + 1, sf.2)
      else if substr fatalMsg l then (sf.1, sf.2 + 1)
      else sf) (0, 0)

/-- `PipelineMonitor.get_log_summary` on the lines of an existing log file:
count lines containing the success marker, else the fatal marker, and derive
the success rate, guarded against an empty history. -/
def get_log_summary (lines : List String) : LogSummary :=
  { total_fetches := (tallyLog lines).1 + (tallyLog lines).2
    successful_fetches := (tallyLog lines).1
    failed_fetches := (tallyLog lines).2
    success_rate :=
      if (tallyLog lines).1 + (tallyLog lines).2 > 0 then
        some (((tallyLog lines).1 : ℚ) /
          (((tallyLog lines).1 : ℚ) + ((tallyLog lines).2 : ℚ)) * 100)
      else none }

/-! ## Helper lemmas about the store -/

theorem updRec_market_id (r : Market) (d : MarketData) (n : Nat) :
    (updRec r d n).market_id = r.market_id := rfl

theorem pMatch_updRec (d' d : MarketData) (r : Market) (n : Nat) :
    pMatch d' (updRec r d n) = pMatch d' r := rfl

theorem updRec_updRec (r : Market) (d d' : MarketData) (n n' : Nat) :
    updRec (updRec r d n) d' n' = updRec r d' n' := rfl

theorem updRec_newRec (d : MarketData) (n : Nat) :
    updRec (newRec d n) d n = newRec d n := rfl

theorem updateFirst_any (p q : Market → Bool) (f : Market → Market)
    (hf : ∀ r, q (f r) = q r) :
    ∀ s : List Market, (updateFirst p f s).any q = s.any q := by
  intro s
  induction s with
  | nil => rfl
  | cons r rs ih =>
    by_cases hp : p r
    · simp [updateFirst, hp, hf]
    · simp [updateFirst, hp, ih]

theorem updateFirst_congr (p : Market → Bool) (f g : Market → Market)
    (h : ∀ r, p r = true → f r = g r) :
    ∀ s : List Market, updateFirst p f s = updateFirst p g s := by
  intro s
  induction s with
  | nil => rfl
  | cons r rs ih =>
    by_cases hp : p r
    · simp [updateFirst, hp, h r hp]
    · simp [updateFirst, hp, ih]

theorem updateFirst_pred_congr (p q : Market → Bool) (f : Market → Market)
    (h : ∀ r, p r = q r) :
    ∀ s : List Market, updateFirst p f s = updateFirst q f s := by
  intro s
  have : p = q := funext h
  rw [this]

theorem updateFirst_comp (p : Market → Bool) (f g : Market → Market)
    (hg : ∀ r, p (g r) = p r) :
    ∀ s : List Market,
      updateFirst p f (updateFirst p g s) = updateFirst p (fun r => f (g r)) s := by
  intro s
  induction s with
  | nil => rfl
  | cons r rs ih =>
    by_cases hp : p r
    · simp [updateFirst, hp, hg]
    · simp [updateFirst, hp, ih]

theorem updateFirst_comm (p q : Market → Bool) (f g : Market → Market)
    (hpq : ∀ r, p r = true → q r = false)
    (hqp : ∀ r, q r = true → p r = false)
    (hf : ∀ r, q (f r) = q r) (hg : ∀ r, p (g r) = p r) :
    ∀ s : List Market,
      updateFirst p f (updateFirst q g s) = updateFirst q g (updateFirst p f s) := by
  intro s
  induction s with
  | nil => rfl
  | cons r rs ih =>
    by_cases hq : q r
    · simp [updateFirst, hq, hqp r hq, hg]
    · by_cases hp : p r
      · simp [updateFirst, hq, hp, hf, hpq r hp]
      · simp [updateFirst, hq, hp, ih]

theorem updateFirst_append_of_any (p : Market → Bool) (f : Market → Market)
    (l : List Market) :
    ∀ s : List Market, s.any p = true →
      updateFirst p f (s ++ l) = updateFirst p f s ++ l := by
  intro s
  induction s with
  | nil => intro h; simp at h
  | cons r rs ih =>
    intro h
    by_cases hp : p r
    · simp [updateFirst, hp]
    · rw [List.any_cons, eq_false_of_ne_true hp, Bool.false_or] at h
      simp [updateFirst, hp, ih h]

theorem updateFirst_append_of_none (p : Market → Bool) (f : Market → Market)
    (l : List Market) :
    ∀ s : List Market, s.any p = false →
      updateFirst p f (s ++ l) = s ++ updateFirst p f l := by
  intro s
  induction s with
  | nil => intro _; rfl
  | cons r rs ih =>
    intro h
    rw [List.any_cons, Bool.or_eq_false_iff] at h
    simp [updateFirst, h.1, ih h.2]

theorem updateFirst_of_all_neg (p : Market → Bool) (f : Market → Market) :
    ∀ s : List Market, s.any p = false → updateFirst p f s = s := by
  intro s
  induction s with
  | nil => intro _; rfl
  | cons r rs ih =>
    intro h
    rw [List.any_cons, Bool.or_eq_false_iff] at h
    simp [updateFirst, h.1, ih h.2]

theorem updateFirst_length (p : Market → Bool) (f : Market → Market) :
    ∀ s : List Market, (updateFirst p f s).length = s.length := by
  intro s
  induction s with
  | nil => rfl
  | cons r rs ih =>
    by_cases hp : p r
    · simp [updateFirst, hp]
    · simp [updateFirst, hp, ih]

theorem updateFirst_map (p : Market → Bool) (f : Market → Market)
    {β : Type} (g : Market → β) (h : ∀ r, g (f r) = g r) :
    ∀ s : List Market, (updateFirst p f s).map g = s.map g := by
  intro s
  induction s with
  | nil => rfl
  | cons r rs ih =>
    by_cases hp : p r
    · simp [updateFirst, hp, h]
    · simp [updateFirst, hp, ih]

theorem updateFirst_first_match (p : Market → Bool) (f : Market → Market) :
    ∀ (pre post : List Market) (r : Market),
      (∀ x ∈ pre, p x = false) → p r = true →
      updateFirst p f (pre ++ r :: post) = pre ++ f r :: post := by
  intro pre
  induction pre with
  | nil => intro post r _ hr; simp [updateFirst, hr]
  | cons a rest ih =>
    intro post r hpre hr
    have ha : p a = false := hpre a (by simp)
    simp [updateFirst, ha]
    exact ih post r (fun x hx => hpre x (by simp [hx])) hr

theorem exists_first_match (p : Market → Bool) :
    ∀ s : List Market, s.any p = true →
      ∃ pre r post, s = pre ++ r :: post ∧
        (∀ x ∈ pre, p x = false) ∧ p r = true := by
  intro s
  induction s with
  | nil => intro h; simp at h
  | cons a rest ih =>
    intro h
    by_cases hp : p a
    · exact ⟨[], a, rest, rfl, by simp, hp⟩
    · rw [List.any_cons, eq_false_of_ne_true hp, Bool.false_or] at h
      obtain ⟨pre, r, post, hs, hpre, hr⟩ := ih h
      refine ⟨a :: pre, r, post, by simp [hs], ?_, hr⟩
      intro x hx
      rcases List.mem_cons.mp hx with h1 | h1
      · rw [h1]; exact eq_false_of_ne_true hp
      · exact hpre x h1

theorem pMatch_newRec (d' d : MarketData) (n : Nat) :
    pMatch d' (newRec d n) = decide (d.market_id = d'.market_id) := rfl

theorem pMatch_self_newRec (d : MarketData) (n : Nat) :
    pMatch d (newRec d n) = true := by
  simp [pMatch, newRec]

theorem pMatch_disjoint (d d' : MarketData)
    (h : d'.market_id ≠ d.market_id) (r : Market) :
    pMatch d r = true → pMatch d' r = false := by
  intro hr
  simp [pMatch] at hr ⊢
  rw [hr]
  exact fun heq => h heq.symm

theorem hasId_upsert_self (n : Nat) (s : List Market) (d : MarketData) :
    hasId (upsert n s d) d = true := by
  by_cases h : hasId s d
  · rw [upsert, if_pos h, hasId,
      updateFirst_any (pMatch d) (pMatch d) _ (fun r => pMatch_updRec d d r n)]
    exact h
  · rw [upsert, if_neg h, hasId]
    simp [List.any_append, pMatch_self_newRec]

theorem hasId_upsert_mono (n : Nat) (s : List Market) (d d' : MarketData)
    (h : hasId s d = true) : hasId (upsert n s d') d = true := by
  by_cases h' : hasId s d'
  · rw [upsert, if_pos h', hasId,
      updateFirst_any (pMatch d') (pMatch d) _ (fun r => pMatch_updRec d d' r n)]
    exact h
  · rw [upsert, if_neg h', hasId, List.any_append]
    rw [hasId] at h
    rw [h, Bool.true_or]

theorem hasId_upsert_ne (n : Nat) (s : List Market) (d d' : MarketData)
    (hne : d'.market_id ≠ d.market_id) :
    hasId (upsert n s d') d = hasId s d := by
  by_cases h' : hasId s d'
  · rw [upsert, if_pos h', hasId,
      updateFirst_any (pMatch d') (pMatch d) _ (fun r => pMatch_updRec d d' r n)]
    rfl
  · rw [upsert, if_neg h', hasId]
    have hnew : pMatch d (newRec d' n) = false := by
      simp [pMatch, newRec]
      exact fun heq => hne heq
    simp [List.any_append, hnew]
    rfl

/-! ## Idempotence machinery -/

/-- The batch effect of `store_markets` when every record processes without
error: fold the upsert over the records. -/
def applyBatch (n : Nat) (s : List Market) (b : List MarketData) : List Market :=
  b.foldl (upsert n) s

/-- `s` is settled for `d` at time `n`: a row with `d`'s id exists and
re-updating the first such row with `d` at `n` changes nothing. -/
def settled (n : Nat) (d : MarketData) (s : List Market) : Prop :=
  hasId s d = true ∧
  updateFirst (pMatch d) (fun r => updRec r d n) s = s

theorem settled_upsert_eq {n : Nat} {d : MarketData} {s : List Market}
    (h : settled n d s) : upsert n s d = s := by
  rw [upsert, if_pos h.1]
  exact h.2

theorem settled_after_upsert (n : Nat) (d : MarketData) (s : List Market) :
    settled n d (upsert n s d) := by
  constructor
  · exact hasId_upsert_self n s d
  · by_cases h : hasId s d
    · rw [upsert, if_pos h]
      rw [updateFirst_comp (pMatch d) _ _ (fun r => pMatch_updRec d d r n)]
      exact updateFirst_congr (pMatch d) _ _
        (fun r _ => updRec_updRec r d d n n) s
    · rw [upsert, if_neg h]
      rw [updateFirst_append_of_none (pMatch d) _ _ s
        (eq_false_of_ne_true h)]
      have : updateFirst (pMatch d) (fun r => updRec r d n) [newRec d n]
          = [newRec d n] := by
        simp [updateFirst, pMatch_self_newRec, updRec_newRec]
      rw [this]

theorem settled_preserved {n : Nat} {d d' : MarketData} {s : List Market}
    (h : settled n d s) (hne : d'.market_id ≠ d.market_id) :
    settled n d (upsert n s d') := by
  constructor
  · exact hasId_upsert_mono n s d d' h.1
  · by_cases h' : hasId s d'
    · rw [upsert, if_pos h']
      rw [updateFirst_comm (pMatch d) (pMatch d') _ _
        (pMatch_disjoint d d' hne)
        (pMatch_disjoint d' d (fun heq => hne heq.symm))
        (fun r => pMatch_updRec d' d r n)
        (fun r => pMatch_updRec d d' r n) s]
      rw [h.2]
    · rw [upsert, if_neg h']
      rw [updateFirst_append_of_any (pMatch d) _ _ s h.1, h.2]

theorem hasId_applyBatch_mono (n : Nat) (d : MarketData) :
    ∀ (b : List MarketData) (s : List Market), hasId s d = true →
      hasId (applyBatch n s b) d = true := by
  intro b
  induction b with
  | nil => intro s h; exact h
  | cons d' b' ih =>
    intro s h
    exact ih (upsert n s d') (hasId_upsert_mono n s d d' h)

theorem settled_applyBatch {n : Nat} {d : MarketData} :
    ∀ (b : List MarketData) (s : List Market), settled n d s →
      (∀ d' ∈ b, d'.market_id ≠ d.market_id) →
      settled n d (applyBatch n s b) := by
  intro b
  induction b with
  | nil => intro s h _; exact h
  | cons d' b' ih =>
    intro s h hb
    exact ih (upsert n s d')
      (settled_preserved h (hb d' (by simp)))
      (fun x hx => hb x (by simp [hx]))

theorem upsert_pos {n : Nat} {s : List Market} {d : MarketData}
    (h : hasId s d = true) :
    upsert n s d = updateFirst (pMatch d) (fun r => updRec r d n) s := by
  rw [upsert, if_pos h]

theorem upsert_neg {n : Nat} {s : List Market} {d : MarketData}
    (h : hasId s d = false) :
    upsert n s d = s ++ [newRec d n] := by
  rw [upsert, if_neg (by simp [h])]

theorem any_pred_congr {p q : Market → Bool} (h : ∀ r, p r = q r) :
    ∀ s : List Market, s.any p = s.any q := by
  intro s
  have : p = q := funext h
  rw [this]

theorem upsert_same_id_absorb {n : Nat} {t : List Market}
    {d d'' : MarketData} (hT : hasId t d = true)
    (hid : d''.market_id = d.market_id) :
    upsert n (upsert n t d) d'' = upsert n t d'' := by
  have hpred : ∀ r, pMatch d'' r = pMatch d r := by
    intro r
    simp [pMatch, hid]
  have hT'' : hasId t d'' = true := by
    rw [hasId, any_pred_congr hpred]
    exact hT
  have h2 : hasId (updateFirst (pMatch d) (fun r => updRec r d n) t) d'' = true := by
    rw [hasId, any_pred_congr hpred,
      updateFirst_any (pMatch d) (pMatch d) _ (fun r => pMatch_updRec d d r n)]
    exact hT
  rw [upsert_pos hT, upsert_pos h2, upsert_pos hT'']
  rw [updateFirst_pred_congr (pMatch d'') (pMatch d) _ hpred]
  rw [updateFirst_pred_congr (pMatch d'') (pMatch d) _ hpred]
  rw [updateFirst_comp (pMatch d) _ _ (fun r => pMatch_updRec d d r n)]
  exact updateFirst_congr (pMatch d) _ _
    (fun r _ => updRec_updRec r d d'' n n) t

theorem upsert_ne_id_comm {n : Nat} {t : List Market}
    {d d'' : MarketData} (hT : hasId t d = true)
    (hid : d''.market_id ≠ d.market_id) :
    upsert n (upsert n t d) d'' = upsert n (upsert n t d'') d := by
  by_cases h2 : hasId t d''
  · have ha : hasId (updateFirst (pMatch d) (fun r => updRec r d n) t) d'' = true := by
      rw [hasId, updateFirst_any (pMatch d) (pMatch d'') _
        (fun r => pMatch_updRec d'' d r n)]
      exact h2
    have hb : hasId (updateFirst (pMatch d'') (fun r => updRec r d'' n) t) d = true := by
      rw [hasId, updateFirst_any (pMatch d'') (pMatch d) _
        (fun r => pMatch_updRec d d'' r n)]
      exact hT
    rw [upsert_pos hT, upsert_pos h2, upsert_pos ha, upsert_pos hb]
    exact updateFirst_comm (pMatch d'') (pMatch d) _ _
      (pMatch_disjoint d'' d (fun heq => hid heq.symm))
      (pMatch_disjoint d d'' hid)
      (fun r => pMatch_updRec d d'' r n)
      (fun r => pMatch_updRec d'' d r n) t
  · have ha : hasId (upsert n t d) d'' = false := by
      rw [hasId_upsert_ne n t d'' d (fun heq => hid heq.symm)]
      exact eq_false_of_ne_true h2
    have hc : hasId (t ++ [newRec d'' n]) d = true := by
      rw [hasId, List.any_append]
      rw [hasId] at hT
      rw [hT, Bool.true_or]
    rw [upsert_neg ha, upsert_neg (eq_false_of_ne_true h2), upsert_pos hc,
      upsert_pos hT, updateFirst_append_of_any (pMatch d) _ _ t hT]

theorem applyBatch_absorb {n : Nat} {d : MarketData} :
    ∀ (b : List MarketData) (t : List Market), hasId t d = true →
      (settled n d t ∨ ∃ d' ∈ b, d'.market_id = d.market_id) →
      applyBatch n (upsert n t d) b = applyBatch n t b := by
  intro b
  induction b with
  | nil =>
    intro t _ hdisj
    rcases hdisj with hs | ⟨d', hd', _⟩
    · exact settled_upsert_eq hs
    · exact absurd hd' (List.not_mem_nil d')
  | cons d'' b'' ih =>
    intro t hT hdisj
    show applyBatch n (upsert n (upsert n t d) d'') b''
        = applyBatch n (upsert n t d'') b''
    by_cases hid : d''.market_id = d.market_id
    · rw [upsert_same_id_absorb hT hid]
    · rw [upsert_ne_id_comm hT hid]
      refine ih (upsert n t d'') (hasId_upsert_mono n t d d'' hT) ?_
      rcases hdisj with hs | ⟨d', hd', hd'id⟩
      · exact Or.inl (settled_preserved hs hid)
      · rcases List.mem_cons.mp hd' with h1 | h1
        · exact absurd (h1 ▸ hd'id) hid
        · exact Or.inr ⟨d', h1, hd'id⟩

theorem applyBatch_idem (n : Nat) :
    ∀ (b : List MarketData) (s : List Market),
      applyBatch n (applyBatch n s b) b = applyBatch n s b := by
  intro b
  induction b with
  | nil => intro s; rfl
  | cons d b' ih =>
    intro s
    show applyBatch n (upsert n (applyBatch n (upsert n s d) b') d) b'
        = applyBatch n (upsert n s d) b'
    have hT : hasId (applyBatch n (upsert n s d) b') d = true :=
      hasId_applyBatch_mono n d b' (upsert n s d) (hasId_upsert_self n s d)
    have hdisj : settled n d (applyBatch n (upsert n s d) b') ∨
        ∃ d' ∈ b', d'.market_id = d.market_id := by
      by_cases hex : ∃ d' ∈ b', d'.market_id = d.market_id
      · exact Or.inr hex
      · push_neg at hex
        exact Or.inl (settled_applyBatch b' (upsert n s d)
          (settled_after_upsert n d s) hex)
    rw [applyBatch_absorb b' _ hT hdisj]
    exact ih (upsert n s d)

/-! ## Bridge lemmas between `store_markets` and `applyBatch` -/

theorem storeLoop_store (ok : MarketData → Bool) (n : Nat) :
    ∀ (b : List (Option MarketData)) (acc : Nat × List Market),
      (storeLoop ok n acc b).2 =
        applyBatch n acc.2 ((b.filterMap id).filter ok) := by
  intro b
  induction b with
  | nil => intro acc; rfl
  | cons od rest ih =>
    intro acc
    cases od with
    | none => simp [storeLoop, ih acc, List.filterMap_cons]
    | some d =>
      by_cases hd : ok d
      · simp [storeLoop, hd, ih, List.filterMap_cons, List.filter_cons, applyBatch]
      · simp [storeLoop, hd, ih, List.filterMap_cons, List.filter_cons, applyBatch]

theorem storeLoop_count (ok : MarketData → Bool) (n : Nat) :
    ∀ (b : List (Option MarketData)) (acc : Nat × List Market),
      (storeLoop ok n acc b).1 =
        acc.1 + b.countP (fun od => match od with
                                    | none => false
                                    | some d => ok d) := by
  intro b
  induction b with
  | nil => intro acc; simp [storeLoop, List.countP_nil]
  | cons od rest ih =>
    intro acc
    cases od with
    | none => simp [storeLoop, ih acc, List.countP_cons]
    | some d =>
      by_cases hd : ok d
      · simp [storeLoop, hd, ih, List.countP_cons]
        omega
      · simp [storeLoop, hd, ih, List.countP_cons]

theorem storeLoop_skip {ok : MarketData → Bool} {d : MarketData}
    (n : Nat) (hd : ok d = false) :
    ∀ (pre post : List (Option MarketData)) (acc : Nat × List Market),
      storeLoop ok n acc (pre ++ some d :: post) =
        storeLoop ok n acc (pre ++ post) := by
  intro pre
  induction pre with
  | nil => intro post acc; simp [storeLoop, hd]
  | cons od rest ih =>
    intro post acc
    cases od with
    | none => simp [storeLoop, ih]
    | some d' =>
      by_cases hd' : ok d'
      · simp [storeLoop, hd', ih]
      · simp [storeLoop, hd', ih]

theorem store_markets_rollback (ok : MarketData → Bool) (n : Nat)
    (s : List Market) (b : List (Option MarketData)) :
    store_markets false ok n s b = (0, s) := by
  rw [store_markets]
  by_cases hb : b.isEmpty
  · rw [if_pos hb]
  · rw [if_neg hb]
    simp

theorem store_markets_store (ok : MarketData → Bool) (n : Nat)
    (s : List Market) (b : List (Option MarketData)) :
    (store_markets true ok n s b).2 =
      applyBatch n s ((b.filterMap id).filter ok) := by
  rw [store_markets]
  by_cases hb : b.isEmpty
  · rw [if_pos hb]
    rw [List.isEmpty_iff] at hb
    subst hb
    rfl
  · rw [if_neg hb]
    exact storeLoop_store ok n b (0, s)

/-! ## Substring semantics -/

theorem prefixOf_iff : ∀ nd h : List Char,
    prefixOf nd h = true ↔ ∃ r, h = nd ++ r := by
  intro nd
  induction nd with
  | nil =>
    intro h
    simp [prefixOf]
  | cons a as ih =>
    intro h
    cases h with
    | nil =>
      simp [prefixOf]
    | cons b bs =>
      rw [prefixOf, Bool.and_eq_true, beq_iff_eq, ih bs]
      constructor
      · rintro ⟨rfl, r, rfl⟩
        exact ⟨r, rfl⟩
      · rintro ⟨r, hr⟩
        injection hr with h1 h2
        exact ⟨h1.symm, r, h2⟩

theorem containsSub_iff (nd : List Char) : ∀ h : List Char,
    containsSub nd h = true ↔ ∃ pre post, h = pre ++ nd ++ post := by
  intro h
  induction h with
  | nil =>
    rw [containsSub]
    constructor
    · intro he
      rw [List.isEmpty_iff] at he
      exact ⟨[], [], by simp [he]⟩
    · rintro ⟨pre, post, hsplit⟩
      have h1 := (List.append_eq_nil.mp hsplit.symm)
      have h2 := (List.append_eq_nil.mp h1.1)
      rw [List.isEmpty_iff, h2.2]
  | cons c rest ih =>
    rw [containsSub, Bool.or_eq_true, prefixOf_iff, ih]
    constructor
    · rintro (⟨r, hr⟩ | ⟨pre, post, hrest⟩)
      · exact ⟨[], r, by simp [hr]⟩
      · exact ⟨c :: pre, post, by simp [hrest]⟩
    · rintro ⟨pre, post, hsplit⟩
      cases pre with
      | nil =>
        left
        exact ⟨post, by simpa using hsplit⟩
      | cons x xs =>
        right
        simp only [List.cons_append] at hsplit
        injection hsplit with h1 h2
        exact ⟨xs, post, h2⟩

theorem substr_iff (nd hay : String) :
    substr nd hay = true ↔
      ∃ pre post, hay.toList = pre ++ nd.toList ++ post :=
  containsSub_iff nd.toList hay.toList

/-! ## Small helpers for the filter and the monitor -/

theorem filter_crypto_eq_filter : ∀ ms : List RawMarket,
    filter_crypto_markets ms = List.filter isCryptoRelevant ms := by
  intro ms
  induction ms with
  | nil => rfl
  | cons m rest ih =>
    by_cases h : isCryptoRelevant m
    · simp [filter_crypto_markets, List.filter_cons, h, ih]
    · simp [filter_crypto_markets, List.filter_cons, h, ih]

theorem isCryptoRelevant_no_question (m : RawMarket)
    (h : m.question = none) : isCryptoRelevant m = false := by
  rw [isCryptoRelevant, h]
  decide

theorem get_last_update_time_eq_none : ∀ s : List Market,
    get_last_update_time s = none ↔ s = [] := by
  intro s
  cases s with
  | nil => simp [get_last_update_time]
  | cons r rs => simp [get_last_update_time]

theorem extract_fields (m : RawMarket) (r : MarketData)
    (h : extract_market_data m = some r) :
    volField m.volume = some r.volume ∧
    volField m.volume24h = some r.volume_24h := by
  rw [extract_market_data] at h
  split at h
  · rename_i y np v24 v hy hnp h24 hv
    injection h with h
    subst h
    exact ⟨hv, h24⟩
  · exact absurd h (by simp)

theorem store_markets_true_char (ok : MarketData → Bool) (n : Nat)
    (s : List Market) (b : List (Option MarketData)) :
    store_markets true ok n s b =
      (b.countP (fun od => match od with
                           | none => false
                           | some d => ok d),
       applyBatch n s ((b.filterMap id).filter ok)) := by
  rw [store_markets]
  by_cases hb : b.isEmpty
  · rw [if_pos hb]
    rw [List.isEmpty_iff] at hb
    subst hb
    rfl
  · rw [if_neg hb]
    simp only [if_true]
    refine Prod.ext ?_ ?_
    · rw [storeLoop_count ok n b (0, s)]
      simp
    · exact storeLoop_store ok n b (0, s)

theorem fetchLoop_attempts_le (o : Nat → FetchOutcome) :
    ∀ l : List Nat, (fetchLoop o l).2.1 ≤ l.length := by
  intro l
  induction l with
  | nil => simp [fetchLoop]
  | cons a rest ih =>
    cases h : o a with
    | success ms => simp [fetchLoop, h]
    | connError =>
      by_cases ha : a < MAX_RETRIES - 1
      · simp only [fetchLoop, h, if_pos ha, List.length_cons]
        omega
      · simp only [fetchLoop, h, if_neg ha, List.length_cons]
        omega
    | timeout =>
      by_cases ha : a < MAX_RETRIES - 1
      · simp only [fetchLoop, h, if_pos ha, List.length_cons]
        omega
      · simp only [fetchLoop, h, if_neg ha, List.length_cons]
        omega
    | otherError =>
      simp only [fetchLoop, h, List.length_cons]
      omega

/-- A transient attempt outcome: one of the two exception classes that
`fetch_markets` retries on. -/
def transient (o : FetchOutcome) : Prop :=
  o = FetchOutcome.connError ∨ o = FetchOutcome.timeout

/-! ## Concrete example values used by the witnesses -/

/-- A concrete normalized record. -/
def dEx : MarketData :=
  { market_id := some "mkt-1"
    question := "Will bitcoin close above 100k"
    description := none
    yes_price := some 1
    no_price := some 0
    volume_24h := 5
    volume := 7
    active := true
    resolved := false
    outcome := none
    end_date := none }

/-- A concrete stored row carrying `dEx`'s id. -/
def rEx : Market := newRec dEx 0

/-- A raw payload with no question key. -/
def mNoQuestion : RawMarket :=
  { id := some "x"
    question := none
    description := none
    outcomePrices := OPrices.absent
    volume24h := none
    volume := none
    active := none
    resolved := none
    outcome := none
    endDate := none }

/-- A raw payload whose volume field is a present, truthy, non-numeric
string. -/
def mBadVolume : RawMarket :=
  { id := some "42"
    question := some "Will bitcoin rise"
    description := none
    outcomePrices := OPrices.absent
    volume24h := none
    volume := some (JNum.jstr "abc")
    active := none
    resolved := none
    outcome := none
    endDate := none }

/-- The same payload with both volume keys absent. -/
def mVolAbsent : RawMarket :=
  { mBadVolume with volume := none }

/-! ## Claim theorems -/

/-- C1: `store_markets` treats a batch as one transaction.  When the final
commit fails the call returns `0` and the store is unchanged; a record
whose processing raises is caught and skipped without aborting the rest of
the batch; and on a successful commit the returned value is the number of
records the loop attempted to write (every non-null record that processed
without error), not a separately tracked count of committed rows. -/
theorem store_markets_batch_semantics :
    (∀ (ok : MarketData → Bool) (n : Nat) (s : List Market)
        (b : List (Option MarketData)),
      store_markets false ok n s b = (0, s)) ∧
    (∀ (c : Bool) (ok : MarketData → Bool) (n : Nat) (s : List Market)
        (pre post : List (Option MarketData)) (d : MarketData),
      ok d = false →
      store_markets c ok n s (pre ++ some d :: post) =
        store_markets c ok n s (pre ++ post)) ∧
    (∀ (ok : MarketData → Bool) (n : Nat) (s : List Market)
        (b : List (Option MarketData)),
      (store_markets true ok n s b).1 =
        b.countP (fun od => match od with
                            | none => false
                            | some d => ok d)) := by
  refine ⟨store_markets_rollback, ?_, ?_⟩
  · intro c ok n s pre post d hd
    cases c with
    | false => rw [store_markets_rollback, store_markets_rollback]
    | true =>
      rw [store_markets_true_char, store_markets_true_char]
      refine Prod.ext ?_ ?_
      · simp [List.countP_append, List.countP_cons, hd]
      · simp [List.filterMap_append, List.filterMap_cons,
          List.filter_append, List.filter_cons, hd]
  · intro ok n s b
    rw [store_markets_true_char]

/-- C1 witness: skipping a failing record at a concrete input. -/
theorem store_markets_batch_semantics_witness :
    store_markets true (fun _ => false) 0 []
        ([] ++ some dEx :: []) =
      store_markets true (fun _ => false) 0 [] ([] ++ []) :=
  store_markets_batch_semantics.2.1 true (fun _ => false) 0 [] [] [] dEx rfl

/-- C2: `fetch_markets` makes at most `MAX_RETRIES = 3` attempts; it
retries only after a connection error or timeout, sleeping `2^attempt`
(0-indexed) before each retry; a first successful attempt returns its
payload immediately; any non-transient error returns the empty result
immediately without consuming further attempts; and after 3 transient
failures it returns the empty result with both back-off sleeps performed
rather than raising. -/
theorem fetch_markets_retry_policy :
    (∀ o : Nat → FetchOutcome, (fetch_markets o).2.1 ≤ MAX_RETRIES) ∧
    (∀ (o : Nat → FetchOutcome) (ms : List RawMarket),
      o 0 = FetchOutcome.success ms → fetch_markets o = (ms, 1, [])) ∧
    (∀ o : Nat → FetchOutcome,
      o 0 = FetchOutcome.otherError → fetch_markets o = ([], 1, [])) ∧
    (∀ (o : Nat → FetchOutcome) (ms : List RawMarket),
      transient (o 0) → o 1 = FetchOutcome.success ms →
      fetch_markets o = (ms, 2, [2 ^ 0])) ∧
    (∀ o : Nat → FetchOutcome,
      transient (o 0) → o 1 = FetchOutcome.otherError →
      fetch_markets o = ([], 2, [2 ^ 0])) ∧
    (∀ (o : Nat → FetchOutcome) (ms : List RawMarket),
      transient (o 0) → transient (o 1) → o 2 = FetchOutcome.success ms →
      fetch_markets o = (ms, 3, [2 ^ 0, 2 ^ 1])) ∧
    (∀ o : Nat → FetchOutcome,
      transient (o 0) → transient (o 1) → o 2 = FetchOutcome.otherError →
      fetch_markets o = ([], 3, [2 ^ 0, 2 ^ 1])) ∧
    (∀ o : Nat → FetchOutcome,
      transient (o 0) → transient (o 1) → transient (o 2) →
      fetch_markets o = ([], 3, [2 ^ 0, 2 ^ 1])) := by
  have hrange : List.range MAX_RETRIES = [0, 1, 2] := rfl
  refine ⟨?_, ?_, ?_, ?_, ?_, ?_, ?_, ?_⟩
  · intro o
    have h := fetchLoop_attempts_le o (List.range MAX_RETRIES)
    rw [List.length_range] at h
    exact h
  · intro o ms h0
    rw [fetch_markets, hrange]
    simp [fetchLoop, h0]
  · intro o h0
    rw [fetch_markets, hrange]
    simp [fetchLoop, h0]
  · intro o ms h0 h1
    rw [fetch_markets, hrange]
    rcases h0 with h0 | h0 <;>
      simp [fetchLoop, h0, h1, MAX_RETRIES]
  · intro o h0 h1
    rw [fetch_markets, hrange]
    rcases h0 with h0 | h0 <;>
      simp [fetchLoop, h0, h1, MAX_RETRIES]
  · intro o ms h0 h1 h2
    rw [fetch_markets, hrange]
    rcases h0 with h0 | h0 <;> rcases h1 with h1 | h1 <;>
      simp [fetchLoop, h0, h1, h2, MAX_RETRIES]
  · intro o h0 h1 h2
    rw [fetch_markets, hrange]
    rcases h0 with h0 | h0 <;> rcases h1 with h1 | h1 <;>
      simp [fetchLoop, h0, h1, h2, MAX_RETRIES]
  · intro o h0 h1 h2
    rw [fetch_markets, hrange]
    rcases h0 with h0 | h0 <;> rcases h1 with h1 | h1 <;>
      rcases h2 with h2 | h2 <;>
      simp [fetchLoop, h0, h1, h2, MAX_RETRIES]

/-- C2 witness: three connection errors exhaust the retries with the two
exponential back-off sleeps. -/
theorem fetch_markets_retry_policy_witness :
    fetch_markets (fun _ => FetchOutcome.connError) = ([], 3, [2 ^ 0, 2 ^ 1]) :=
  fetch_markets_retry_policy.2.2.2.2.2.2.2 (fun _ => FetchOutcome.connError)
    (Or.inl rfl) (Or.inl rfl) (Or.inl rfl)

/-- C3: `filter_crypto_markets` is exactly the stable filter of the input
by the crypto-keyword test: the output equals `List.filter`, is a
subsequence of the input (order preserved, no reordering), a payload whose
question key is absent is never included, and a payload passes the test
precisely when its lowercased question contains some keyword of
`CRYPTO_KEYWORDS` as a contiguous substring. -/
theorem filter_crypto_markets_spec :
    ∀ ms : List RawMarket,
      filter_crypto_markets ms = List.filter isCryptoRelevant ms ∧
      List.Sublist (filter_crypto_markets ms) ms ∧
      (∀ m : RawMarket, m.question = none → m ∉ filter_crypto_markets ms) ∧
      (∀ m : RawMarket, isCryptoRelevant m = true ↔
        ∃ kw ∈ CRYPTO_KEYWORDS, ∃ pre post : List Char,
          (lowerString (m.question.getD "")).toList =
            pre ++ kw.toList ++ post) := by
  intro ms
  refine ⟨filter_crypto_eq_filter ms, ?_, ?_, ?_⟩
  · rw [filter_crypto_eq_filter ms]
    exact List.filter_sublist ms
  · intro m hq hmem
    rw [filter_crypto_eq_filter ms] at hmem
    have h := (List.mem_filter.mp hmem).2
    rw [isCryptoRelevant_no_question m hq] at h
    exact Bool.false_ne_true h
  · intro m
    rw [isCryptoRelevant, List.any_eq_true]
    constructor
    · rintro ⟨kw, hkw, hsub⟩
      obtain ⟨pre, post, hsplit⟩ := (substr_iff kw _).mp hsub
      exact ⟨kw, hkw, pre, post, hsplit⟩
    · rintro ⟨kw, hkw, pre, post, hsplit⟩
      exact ⟨kw, hkw, (substr_iff kw _).mpr ⟨pre, post, hsplit⟩⟩

/-- C3 witness: a payload without a question key is excluded at a concrete
input. -/
theorem filter_crypto_markets_spec_witness :
    mNoQuestion ∉ filter_crypto_markets [mNoQuestion] :=
  (filter_crypto_markets_spec [mNoQuestion]).2.2.1 mNoQuestion rfl

/-- C4 counterexample: a payload whose `volume` field is the present,
truthy, non-numeric string `"abc"` does not get volume `0` — the whole
record is dropped (`extract_market_data` returns `None`), contradicting the
claim that a record is still returned with the volume defaulted to `0`. -/
theorem extract_nonnumeric_volume_dropped :
    mBadVolume.volume = some (JNum.jstr "abc") ∧
    extract_market_data mBadVolume = none :=
  ⟨rfl, rfl⟩

/-- C4 amended: `extract_market_data` sets a volume field to `0` when the
source field is absent or present-but-falsy, and an absent volume field
never causes the record to be dropped (the result is a record whenever the
price extraction succeeds); but a present, truthy, non-numeric volume value
makes the call return no record at all instead of a record with volume 0. -/
theorem extract_volume_default_semantics :
    (∀ (m : RawMarket) (r : MarketData), extract_market_data m = some r →
      m.volume = none → r.volume = 0) ∧
    (∀ (m : RawMarket) (r : MarketData), extract_market_data m = some r →
      m.volume24h = none → r.volume_24h = 0) ∧
    (∀ (m : RawMarket) (r : MarketData) (j : JNum),
      extract_market_data m = some r →
      m.volume = some j → pyTruthy j = false → r.volume = 0) ∧
    (∀ (m : RawMarket) (r : MarketData) (j : JNum),
      extract_market_data m = some r →
      m.volume24h = some j → pyTruthy j = false → r.volume_24h = 0) ∧
    (∀ m : RawMarket, m.volume = none → m.volume24h = none →
      (extract_market_data m).isSome =
        ((priceAt (effOutcomePrices m) 0).isSome &&
         (priceAt (effOutcomePrices m) 1).isSome)) := by
  refine ⟨?_, ?_, ?_, ?_, ?_⟩
  · intro m r h hv
    have hf := (extract_fields m r h).1
    rw [hv] at hf
    simp [volField] at hf
    exact hf.symm
  · intro m r h hv
    have hf := (extract_fields m r h).2
    rw [hv] at hf
    simp [volField] at hf
    exact hf.symm
  · intro m r j h hv hj
    have hf := (extract_fields m r h).1
    rw [hv] at hf
    simp [volField, hj] at hf
    exact hf.symm
  · intro m r j h hv hj
    have hf := (extract_fields m r h).2
    rw [hv] at hf
    simp [volField, hj] at hf
    exact hf.symm
  · intro m hv h24
    cases hp0 : priceAt (effOutcomePrices m) 0 with
    | none => simp [extract_market_data, hp0, hv, h24, volField]
    | some y =>
      cases hp1 : priceAt (effOutcomePrices m) 1 with
      | none => simp [extract_market_data, hp0, hp1, hv, h24, volField]
      | some np => simp [extract_market_data, hp0, hp1, hv, h24, volField]

/-- C4 witness: with both volume keys absent the record is returned and
both volumes are `0`. -/
theorem extract_volume_default_semantics_witness :
    (∀ r : MarketData, extract_market_data mVolAbsent = some r →
      r.volume = 0) ∧
    (extract_market_data mVolAbsent).isSome =
      ((priceAt (effOutcomePrices mVolAbsent) 0).isSome &&
       (priceAt (effOutcomePrices mVolAbsent) 1).isSome) :=
  ⟨fun r h => extract_volume_default_semantics.1 mVolAbsent r h rfl,
   extract_volume_default_semantics.2.2.2.2 mVolAbsent rfl rfl⟩

/-- C5: running `store_markets` on the same batch twice in a row (same
cycle time, same fault pattern) leaves the store exactly as after one run;
and reconciling a record whose `market_id` already exists rewrites the
first matching row in place through `updRec` — refreshing `updated_at` and
the price fields while keeping the row's `market_id` — without changing the
number of rows (no duplicate is created). -/
theorem store_markets_idempotent :
    (∀ (c : Bool) (ok : MarketData → Bool) (n : Nat) (s : List Market)
        (b : List (Option MarketData)),
      (store_markets c ok n (store_markets c ok n s b).2 b).2 =
        (store_markets c ok n s b).2) ∧
    (∀ (n : Nat) (s : List Market) (d : MarketData), hasId s d = true →
      ∃ pre r post, s = pre ++ r :: post ∧
        (∀ x ∈ pre, pMatch d x = false) ∧ pMatch d r = true ∧
        upsert n s d = pre ++ updRec r d n :: post ∧
        (updRec r d n).market_id = r.market_id ∧
        (updRec r d n).updated_at = n ∧
        (updRec r d n).yes_price = d.yes_price ∧
        (updRec r d n).no_price = d.no_price ∧
        (upsert n s d).length = s.length) := by
  constructor
  · intro c ok n s b
    cases c with
    | false => simp [store_markets_rollback]
    | true =>
      rw [store_markets_store, store_markets_store]
      exact applyBatch_idem n ((b.filterMap id).filter ok) s
  · intro n s d h
    obtain ⟨pre, r, post, hs, hpre, hr⟩ := exists_first_match (pMatch d) s h
    refine ⟨pre, r, post, hs, hpre, hr, ?_, rfl, rfl, rfl, rfl, ?_⟩
    · rw [upsert_pos h, hs]
      exact updateFirst_first_match (pMatch d) _ pre post r hpre hr
    · rw [upsert_pos h, updateFirst_length]

/-- C5 witness: updating an existing row keeps the row count at a concrete
input. -/
theorem store_markets_idempotent_witness :
    ∃ pre r post, [rEx] = pre ++ r :: post ∧
      (∀ x ∈ pre, pMatch dEx x = false) ∧ pMatch dEx r = true ∧
      upsert 3 [rEx] dEx = pre ++ updRec r dEx 3 :: post ∧
      (updRec r dEx 3).market_id = r.market_id ∧
      (updRec r dEx 3).updated_at = 3 ∧
      (updRec r dEx 3).yes_price = dEx.yes_price ∧
      (updRec r dEx 3).no_price = dEx.no_price ∧
      (upsert 3 [rEx] dEx).length = [rEx].length :=
  store_markets_idempotent.2 3 [rEx] dEx (by decide)

/-- C6: `get_data_freshness` returns the no-data result exactly when the
store is empty, and otherwise classifies the age of the most recently
updated row as FRESH when it is under 20 minutes, STALE when it is at
least 20 minutes but under one hour, and VERY STALE when it is at least
one hour. -/
theorem get_data_freshness_spec :
    ∀ (now : Nat) (store : List Market),
      (get_data_freshness now store = (none, noDataMsg) ↔ store = []) ∧
      (∀ t : Nat, get_last_update_time store = some t →
        (((now : Int) - (t : Int) < 20 * 60 →
          get_data_freshness now store =
            (some ((now : Int) - (t : Int)), freshMsg)) ∧
         (20 * 60 ≤ (now : Int) - (t : Int) → (now : Int) - (t : Int) < 3600 →
          get_data_freshness now store =
            (some ((now : Int) - (t : Int)), staleMsg)) ∧
         (3600 ≤ (now : Int) - (t : Int) →
          get_data_freshness now store =
            (some ((now : Int) - (t : Int)), veryStaleMsg)))) := by
  intro now store
  constructor
  · cases hs : get_last_update_time store with
    | none =>
      rw [get_data_freshness, hs]
      simp [(get_last_update_time_eq_none store).mp hs]
    | some t =>
      rw [get_data_freshness, hs]
      constructor
      · intro h
        exact absurd (congrArg Prod.fst h) (by simp)
      · intro h
        rw [h] at hs
        exact absurd hs (by simp [get_last_update_time])
  · intro t ht
    rw [get_data_freshness, ht]
    refine ⟨?_, ?_, ?_⟩
    · intro h1
      simp only [if_pos h1]
    · intro h2 h3
      simp only [if_neg (not_lt.mpr h2), if_pos h3]
    · intro h4
      simp only [if_neg (not_lt.mpr ((by norm_num : (20 * 60 : Int) ≤ 3600).trans h4)),
        if_neg (not_lt.mpr h4)]

/-- C6 witness: a record updated 5 minutes ago is FRESH. -/
theorem get_data_freshness_spec_witness :
    get_data_freshness 400 [rEx] = (some ((400 : Int) - (0 : Int)), freshMsg) :=
  ((get_data_freshness_spec 400 [rEx]).2 0 (by decide)).1 (by decide)

/-- C7: `get_log_summary` reports the success rate as
`successful / (successful + failed)` (as a percentage) whenever at least
one run is recorded, reports the not-applicable value when no runs are
recorded, and the rate is defined exactly when the run count is positive —
the division-by-zero branch is unreachable. -/
theorem get_log_summary_success_rate :
    ∀ lines : List String,
      (get_log_summary lines).total_fetches =
        (get_log_summary lines).successful_fetches +
        (get_log_summary lines).failed_fetches ∧
      (0 < (get_log_summary lines).total_fetches →
        (get_log_summary lines).success_rate =
          some (((get_log_summary lines).successful_fetches : ℚ) /
            (((get_log_summary lines).successful_fetches : ℚ) +
             ((get_log_summary lines).failed_fetches : ℚ)) * 100)) ∧
      ((get_log_summary lines).total_fetches = 0 →
        (get_log_summary lines).success_rate = none) ∧
      ((get_log_summary lines).success_rate.isSome = true ↔
        0 < (get_log_summary lines).total_fetches) := by
  intro lines
  refine ⟨rfl, ?_, ?_, ?_⟩
  · intro hpos
    have hpos' : 0 < (tallyLog lines).1 + (tallyLog lines).2 := hpos
    show (if (tallyLog lines).1 + (tallyLog lines).2 > 0 then
        some (((tallyLog lines).1 : ℚ) /
          (((tallyLog lines).1 : ℚ) + ((tallyLog lines).2 : ℚ)) * 100)
      else none) = _
    rw [if_pos hpos']
    rfl
  · intro hz
    have hz' : (tallyLog lines).1 + (tallyLog lines).2 = 0 := hz
    show (if (tallyLog lines).1 + (tallyLog lines).2 > 0 then
        some (((tallyLog lines).1 : ℚ) /
          (((tallyLog lines).1 : ℚ) + ((tallyLog lines).2 : ℚ)) * 100)
      else none) = none
    rw [if_neg (by omega)]
  · show (if (tallyLog lines).1 + (tallyLog lines).2 > 0 then
        some (((tallyLog lines).1 : ℚ) /
          (((tallyLog lines).1 : ℚ) + ((tallyLog lines).2 : ℚ)) * 100)
      else none).isSome = true ↔
      0 < (tallyLog lines).1 + (tallyLog lines).2
    by_cases hpos : 0 < (tallyLog lines).1 + (tallyLog lines).2
    · rw [if_pos hpos]
      simp [hpos]
    · rw [if_neg hpos]
      simp
      omega

/-- C7 witness: 8 successful and 2 failed cycles give a rate of 80%. -/
theorem get_log_summary_success_rate_witness :
    (get_log_summary (List.replicate 8 succMsg ++ List.replicate 2 fatalMsg)).success_rate
      = some 80 := by
  have h := (get_log_summary_success_rate
    (List.replicate 8 succMsg ++ List.replicate 2 fatalMsg)).2.1 (by decide)
  rw [h]
  have h8 : (get_log_summary
      (List.replicate 8 succMsg ++ List.replicate 2 fatalMsg)).successful_fetches = 8 := by
    decide
  have h2 : (get_log_summary
      (List.replicate 8 succMsg ++ List.replicate 2 fatalMsg)).failed_fetches = 2 := by
    decide
  rw [h8, h2]
  norm_num

/-- C8: on the update path of `store_markets` the first stored row whose
`market_id` matches this cycle's record is rewritten through `updRec`:
the price, volume, `active`, `resolved` and `outcome` fields are
overwritten from the cycle's record and `updated_at` is refreshed, while
the fields the update never reads — `question`, `description`,
`end_date`, `created_at` and the row's `market_id` — keep their previously
stored values. -/
theorem store_markets_update_overwrite_frame :
    ∀ (n : Nat) (pre post : List Market) (r : Market) (d : MarketData),
      (∀ x ∈ pre, pMatch d x = false) → pMatch d r = true →
      upsert n (pre ++ r :: post) d = pre ++ updRec r d n :: post ∧
      (updRec r d n).yes_price = d.yes_price ∧
      (updRec r d n).no_price = d.no_price ∧
      (updRec r d n).volume = d.volume ∧
      (updRec r d n).volume_24h = d.volume_24h ∧
      (updRec r d n).active = d.active ∧
      (updRec r d n).resolved = d.resolved ∧
      (updRec r d n).outcome = d.outcome ∧
      (updRec r d n).updated_at = n ∧
      (updRec r d n).market_id = r.market_id ∧
      (updRec r d n).question = r.question ∧
      (updRec r d n).description = r.description ∧
      (updRec r d n).end_date = r.end_date ∧
      (updRec r d n).created_at = r.created_at := by
  intro n pre post r d hpre hr
  have hhas : hasId (pre ++ r :: post) d = true := by
    rw [hasId, List.any_append, List.any_cons, hr]
    simp
  refine ⟨?_, rfl, rfl, rfl, rfl, rfl, rfl, rfl, rfl, rfl, rfl, rfl, rfl, rfl⟩
  rw [upsert_pos hhas]
  exact updateFirst_first_match (pMatch d) _ pre post r hpre hr

/-- C8 witness: the update path at a concrete one-row store. -/
theorem store_markets_update_overwrite_frame_witness :
    upsert 3 ([] ++ rEx :: []) dEx = [] ++ updRec rEx dEx 3 :: [] :=
  (store_markets_update_overwrite_frame 3 [] [] rEx dEx
    (by simp) (by decide)).1

/-- C9: when the fetch returns no payloads, or the crypto filter selects
none of them, the full cycle `fetch_and_store_markets` reports failure
(`False`) and leaves the store untouched, even though no exception
occurred. -/
theorem fetch_and_store_empty_cycle_fails :
    ∀ (o : Nat → FetchOutcome) (c : Bool) (ok : MarketData → Bool)
        (n : Nat) (s : List Market),
      ((fetch_markets o).1 = [] →
        fetch_and_store_markets o c ok n s = (false, s)) ∧
      (filter_crypto_markets (fetch_markets o).1 = [] →
        fetch_and_store_markets o c ok n s = (false, s)) := by
  intro o c ok n s
  constructor
  · intro h
    simp [fetch_and_store_markets, h]
  · intro hfil
    by_cases hm : (fetch_markets o).1.isEmpty
    · simp [fetch_and_store_markets, hm]
    · simp [fetch_and_store_markets, hm, hfil]

/-- C9 witness: a cycle whose fetch fails on a non-transient error stores
nothing and reports failure. -/
theorem fetch_and_store_empty_cycle_fails_witness :
    fetch_and_store_markets (fun _ => FetchOutcome.otherError)
      true okAll 0 [rEx] = (false, [rEx]) :=
  (fetch_and_store_empty_cycle_fails (fun _ => FetchOutcome.otherError)
    true okAll 0 [rEx]).1 (by decide)

/-- C10: the update path of `store_markets` never modifies the stored
`question`, `description`, `end_date`, `created_at` or `market_id` of any
row: when a row with the record's `market_id` exists, those five columns
are identical across the whole store before and after the upsert (and no
row is added or removed), so only the price, volume, status and
`updated_at` columns can change on update. -/
theorem store_markets_update_identity_columns :
    ∀ (n : Nat) (s : List Market) (d : MarketData), hasId s d = true →
      (upsert n s d).length = s.length ∧
      (upsert n s d).map (fun r => r.market_id) = s.map (fun r => r.market_id) ∧
      (upsert n s d).map (fun r => r.question) = s.map (fun r => r.question) ∧
      (upsert n s d).map (fun r => r.description) =
        s.map (fun r => r.description) ∧
      (upsert n s d).map (fun r => r.end_date) = s.map (fun r => r.end_date) ∧
      (upsert n s d).map (fun r => r.created_at) =
        s.map (fun r => r.created_at) := by
  intro n s d h
  rw [upsert_pos h]
  exact ⟨updateFirst_length _ _ s,
    updateFirst_map (pMatch d) (fun r => updRec r d n)
      (fun r => r.market_id) (fun _ => rfl) s,
    updateFirst_map (pMatch d) (fun r => updRec r d n)
      (fun r => r.question) (fun _ => rfl) s,
    updateFirst_map (pMatch d) (fun r => updRec r d n)
      (fun r => r.description) (fun _ => rfl) s,
    updateFirst_map (pMatch d) (fun r => updRec r d n)
      (fun r => r.end_date) (fun _ => rfl) s,
    updateFirst_map (pMatch d) (fun r => updRec r d n)
      (fun r => r.created_at) (fun _ => rfl) s⟩

/-- C10 witness: identity columns preserved at a concrete one-row store. -/
theorem store_markets_update_identity_columns_witness :
    (upsert 3 [rEx] dEx).map (fun r => r.question) =
      [rEx].map (fun r => r.question) :=
  (store_markets_update_identity_columns 3 [rEx] dEx (by decide)).2.2.1

end DataPipeline
